import Mathlib

/-!
Verification of `phobia/scraper.py` (class `WikiScraper`).

The source is shallowly embedded:

* `clean_tags` embeds `re.sub('<.*?>', '', str(item))` followed by
  `re.sub('\n', '', ...)`.  In Python, `.` does not match a newline, so the
  tag pattern matches from a `<` up to the first subsequent `>` with no
  intervening newline; non-overlapping matches are removed left to right.
  `stripTagsFuel` implements exactly this with an explicit fuel argument
  (the fuel is the input length, always sufficient) so that the function is
  structurally recursive and kernel-evaluable.
* `scrape_tables` embeds the table loop: per table, `th` cells and `td`
  cells in document order, `number_of_rows = len(contents) // len(headings)`
  (a `ZeroDivisionError` when a table has no `th` cells), the row/column
  loops with `content_index = row_number * len(headings) + index`, and the
  conditional growth of `headings_list` while it is shorter than the current
  table's heading count.  The final `pd.DataFrame(contents_list,
  columns=headings_list)` is abstracted as the pair of both lists.
* `get_perpetrators` embeds the `Perpetrator`/`Perpetrators` column scan and
  `dict(Counter(...))` (insertion-ordered keys, exact-string counts).
* The `__init__` year loop and the CSV-saving block are embedded with the
  page fetch abstracted as an oracle `fetch : Nat → List Wikitable` and the
  filesystem as explicit state (`pathlib.Path.mkdir(parents, exist_ok)` and
  `DataFrame.to_csv` modelled as state transitions).
-/

deriving instance DecidableEq for Except

/-- Python exceptions that the embedded code can raise. -/
inductive PyError
  | zeroDivisionError
  | fileExistsError
  | fileNotFoundError
deriving DecidableEq

/-- One HTML table matched by `findAll("table", ["wikitable"])`: its `th`
cells and its `td` cells, each as the raw `str(...)` of the element, in
document order. -/
structure Wikitable where
  th : List String
  td : List String
deriving DecidableEq

/-- Abstraction of `pd.DataFrame(contents_list, columns=headings_list)`:
the column names and the row lists. -/
structure DataFrame where
  columns : List String
  rows : List (List String)
deriving DecidableEq

/-- Scan for the end of a tag match: after a `<`, the regex `<.*?>` matches
up to the first `>` provided no newline intervenes (`.` does not match
`\n`).  Returns the remainder after that `>`, or `none` when no match
starts at this `<`. -/
def findTagEnd : List Char → Option (List Char)
  | [] => none
  | c :: rest =>
    if c = '>' then some rest
    else if c = '\n' then none
    else findTagEnd rest

/-- `re.sub('<.*?>', '', ·)`: remove non-overlapping tag matches left to
right.  Fuel-indexed to keep the recursion structural; fuel equal to the
input length always suffices (each removed match consumes at least one
character of the remainder). -/
def stripTagsFuel : Nat → List Char → List Char
  | _, [] => []
  | 0, c :: rest => c :: rest
  | fuel + 1, c :: rest =>
    if c = '<' then
      match findTagEnd rest with
      | some rest2 => stripTagsFuel fuel rest2
      | none => c :: stripTagsFuel fuel rest
    else c :: stripTagsFuel fuel rest

/-- `re.sub('<.*?>', '', l)` on a character list. -/
def stripTags (l : List Char) : List Char :=
  stripTagsFuel l.length l

/-- `clean_tags`: first remove tag matches, then remove every newline
(`re.sub('\n', '', ·)`). -/
def clean_tags (s : String) : String :=
  ⟨(stripTags s.data).filter (fun c => c != '\n')⟩

/-- Whether `l`, as a whole, ends a tag match begun just before it: all
characters up to the first `>` are neither `>` nor `\n`, and the `>` is the
last character. -/
def closes : List Char → Bool
  | [] => false
  | c :: rest =>
    if c = '>' then rest.isEmpty
    else if c = '\n' then false
    else closes rest

/-- Whether `l`, as a whole, matches the tag pattern `<.*?>` (with `.` not
matching newlines): a `<`, then characters other than `>` and `\n`, then a
final `>`. -/
def isTagMatch : List Char → Bool
  | '<' :: rest => closes rest
  | _ => false

/-- Whether `l` contains a substring matching the tag pattern: some `<` in
`l` is followed by a `>` with no intervening newline.  `hasTag_iff` below
proves this equivalent to the existence of a three-way decomposition whose
middle part satisfies `isTagMatch`. -/
def hasTag : List Char → Bool
  | [] => false
  | c :: rest =>
    if c = '<' then (findTagEnd rest).isSome || hasTag rest
    else hasTag rest

/-- The body of `if len(headings_list) < len(headings):
headings_list.append(self.clean_tags(heading))` for the heading at position
`index`. -/
def hlUpd (headings : List String) (headingsList : List String) (index : Nat) :
    List String :=
  if headingsList.length < headings.length
  then headingsList ++ [clean_tags (headings.getD index "")]
  else headingsList

/-- The inner `for index, heading in enumerate(headings)` loop for one
`row_number`: threads `headings_list` and builds `contents_row`. -/
def innerLoop (headings contents : List String) (rowNumber : Nat)
    (headingsList : List String) : List String × List String :=
  (List.range headings.length).foldl
    (fun acc index =>
      (hlUpd headings acc.1 index,
       acc.2 ++ [clean_tags
         (contents.getD (rowNumber * headings.length + index) "")]))
    (headingsList, [])

/-- The `for row_number in range(number_of_rows)` loop of one table:
threads `headings_list` and appends each `contents_row` to
`contents_list`. -/
def tableLoop (headings contents : List String)
    (headingsList : List String) (contentsList : List (List String)) :
    List String × List (List String) :=
  (List.range (contents.length / headings.length)).foldl
    (fun acc rowNumber =>
      ((innerLoop headings contents rowNumber acc.1).1,
       acc.2 ++ [(innerLoop headings contents rowNumber acc.1).2]))
    (headingsList, contentsList)

/-- The `for wikitable in wikitables` loop.  `len(contents) //
len(headings)` raises `ZeroDivisionError` when a table has no `th`
cells. -/
def scrapeLoop :
    List String × List (List String) → List Wikitable →
    Except PyError (List String × List (List String))
  | acc, [] => Except.ok acc
  | acc, t :: rest =>
    if t.th.length = 0 then Except.error PyError.zeroDivisionError
    else scrapeLoop (tableLoop t.th t.td acc.1 acc.2) rest

/-- `scrape_tables` for one already-fetched page: starts from empty
`headings_list` / `contents_list` and builds the `DataFrame`. -/
def scrape_tables (wikitables : List Wikitable) : Except PyError DataFrame :=
  match scrapeLoop ([], []) wikitables with
  | Except.error e => Except.error e
  | Except.ok (hl, cl) => Except.ok ⟨hl, cl⟩

/-- Characterisation used in theorem statements: the rows a single table
contributes.  Row `r` (for `r < len(td) / len(th)`) pairs the table's
heading positions with the cleaned content cells at
`r * len(th) + i`. -/
def rowsOf (headings contents : List String) : List (List String) :=
  (List.range (contents.length / headings.length)).map
    (fun r => (List.range headings.length).map
      (fun i => clean_tags (contents.getD (r * headings.length + i) "")))

/-- `df['name'].values.tolist()`: the entries of the column labelled
`name` (first matching label), one per row. -/
def columnValues (df : DataFrame) (name : String) : List String :=
  df.rows.map (fun row => row.getD (df.columns.findIdx (fun c => c == name)) "")

/-- One iteration of the `get_perpetrators` loop: extend the running list
with the `Perpetrator` column if present, else with the `Perpetrators`
column if present, else leave it unchanged. -/
def perpStep (perps : List String) (df : DataFrame) : List String :=
  if "Perpetrator" ∈ df.columns then perps ++ columnValues df "Perpetrator"
  else if "Perpetrators" ∈ df.columns then perps ++ columnValues df "Perpetrators"
  else perps

/-- `get_perpetrators`: the flat list of perpetrator entries collected over
all years' tables, in year order. -/
def get_perpetrators (data : List DataFrame) : List String :=
  data.foldl perpStep []

/-- Keys of a Python `Counter`/`dict` built from a list: first-occurrence
order, duplicates dropped. -/
def firstKeys (seen : List String) : List String → List String
  | [] => []
  | a :: l =>
    if a ∈ seen then firstKeys seen l else a :: firstKeys (a :: seen) l

/-- `dict(Counter(l))`: each distinct value of `l`, in first-occurrence
order, paired with its number of occurrences (exact string equality). -/
def counterDict (l : List String) : List (String × Nat) :=
  (firstKeys [] l).map (fun k => (k, l.count k))

/-- The tally `self.perpetrators = dict(Counter(perpetrators))`. -/
def perpetratorTally (data : List DataFrame) : List (String × Nat) :=
  counterDict (get_perpetrators data)

/-- The `for year in range(start_year, stop_year + 1)` loop of `__init__`:
`data[str(year)] = self.scrape_tables(year)`, with the fetch-and-parse of a
year's page abstracted as `fetch`.  An exception from any year aborts the
whole loop. -/
def yearLoop (fetch : Nat → List Wikitable) :
    List Nat → List (String × DataFrame) →
    Except PyError (List (String × DataFrame))
  | [], data => Except.ok data
  | y :: ys, data =>
    match scrape_tables (fetch y) with
    | Except.error e => Except.error e
    | Except.ok df => yearLoop fetch ys (data ++ [(toString y, df)])

/-- The `self.data` dictionary built by `__init__` for years
`start_year .. stop_year` (inclusive; empty when `start_year >
stop_year`, as with Python's `range`). -/
def buildData (fetch : Nat → List Wikitable) (startYear stopYear : Nat) :
    Except PyError (List (String × DataFrame)) :=
  yearLoop fetch (List.range' startYear (stopYear + 1 - startYear)) []

/-- Filesystem state: the set of existing directories and the files (path
to content), each path a list of segments. -/
structure FileSys where
  dirs : List (List String)
  files : List (List String × String)
deriving DecidableEq

/-- Every nonempty initial segment of a path (the directory and all its
ancestors). -/
def initSegments (p : List String) : List (List String) :=
  (List.range p.length).map (fun k => p.take (k + 1))

/-- `pathlib.Path(p).mkdir(parents=..., exist_ok=...)`: raises
`FileExistsError` on an existing directory unless `exist_ok`, raises
`FileNotFoundError` on a missing parent unless `parents`, and otherwise
creates the directory together with any missing ancestors. -/
def mkdir (fs : FileSys) (p : List String) (parents existOk : Bool) :
    Except PyError FileSys :=
  if p ∈ fs.dirs then
    if existOk then Except.ok fs else Except.error PyError.fileExistsError
  else if parents = false ∧ ¬(p.dropLast ∈ fs.dirs ∨ p.dropLast = []) then
    Except.error PyError.fileNotFoundError
  else Except.ok ⟨fs.dirs ++ initSegments p ++ [p], fs.files⟩

/-- Writing a file: replaces any existing file at the same path (the
overwrite of `DataFrame.to_csv`), leaves every other file and all
directories untouched. -/
def writeFile (fs : FileSys) (p : List String) (content : String) : FileSys :=
  ⟨fs.dirs, fs.files.filter (fun kv => kv.1 != p) ++ [(p, content)]⟩

/-- `df.to_csv(...)` serialisation: a header line with an empty cell for
the index column, then one line per row led by its positional index.
(Quoting of embedded commas is not modelled; no claim depends on it.) -/
def toCsvString (df : DataFrame) : String :=
  String.intercalate "," ("" :: df.columns) ++ "\n" ++
    String.join ((List.range df.rows.length).map
      (fun i =>
        String.intercalate "," (toString i :: df.rows.getD i []) ++ "\n"))

/-- The `if save_csv:` loop of `__init__`: per year,
`Path(csv_path).mkdir(parents=True, exist_ok=True)` then
`df.to_csv(csv_path / f'{year}.csv')`.  `csv_path` is the already-resolved
target directory: the source resolves it with `phobia.storage.get`, which
is absent from the repository snapshot; per the spec it is an "external
path-resolution collaborator", so it is modelled as an arbitrary resolved
path and the theorems quantify over it. -/
def saveLoop (csvPath : List String) :
    List (String × DataFrame) → FileSys → Except PyError FileSys
  | [], fs => Except.ok fs
  | (year, df) :: rest, fs =>
    match mkdir fs csvPath true true with
    | Except.error e => Except.error e
    | Except.ok fs2 =>
        saveLoop csvPath rest
          (writeFile fs2 (csvPath ++ [year ++ ".csv"]) (toCsvString df))

theorem findTagEnd_length_le :
    ∀ {l l' : List Char}, findTagEnd l = some l' → l'.length ≤ l.length := by
  intro l
  induction l with
  | nil => intro l' h; simp [findTagEnd] at h
  | cons c rest ih =>
    intro l' h
    by_cases hgt : c = '>'
    · simp [findTagEnd, hgt] at h
      subst h; simp
    · by_cases hnl : c = '\n'
      · simp [findTagEnd, hgt, hnl] at h
      · simp [findTagEnd, hgt, hnl] at h
        exact Nat.le_trans (ih h) (Nat.le_succ _)

theorem stripTagsFuel_congr :
    ∀ (f g : Nat) (l : List Char), l.length ≤ f → l.length ≤ g →
      stripTagsFuel f l = stripTagsFuel g l := by
  intro f
  induction f with
  | zero =>
    intro g l hf _
    have : l = [] := List.length_eq_zero.mp (Nat.le_zero.mp hf)
    subst this; cases g <;> rfl
  | succ f ih =>
    intro g l hf hg
    cases l with
    | nil => cases g <;> rfl
    | cons c rest =>
      cases g with
      | zero => simp at hg
      | succ g =>
        simp only [List.length_cons, Nat.succ_le_succ_iff] at hf hg
        by_cases hlt : c = '<'
        · cases hone : findTagEnd rest with
          | some rest2 =>
            have hle := findTagEnd_length_le hone
            simp only [stripTagsFuel, hlt, if_pos, hone]
            exact ih g rest2 (Nat.le_trans hle hf) (Nat.le_trans hle hg)
          | none =>
            simp only [stripTagsFuel, hlt, if_pos, hone]
            rw [ih g rest hf hg]
        · simp only [stripTagsFuel, hlt, if_neg, ite_false]
          rw [ih g rest hf hg]

theorem stripTags_nil : stripTags [] = [] := rfl

theorem stripTags_cons (c : Char) (rest : List Char) :
    stripTags (c :: rest) =
      if c = '<' then
        match findTagEnd rest with
        | some rest2 => stripTags rest2
        | none => c :: stripTags rest
      else c :: stripTags rest := by
  show stripTagsFuel (rest.length + 1) (c :: rest) = _
  by_cases hlt : c = '<'
  · cases hone : findTagEnd rest with
    | some rest2 =>
      have hle := findTagEnd_length_le hone
      simp only [stripTagsFuel, hlt, if_pos, hone]
      exact stripTagsFuel_congr _ _ _ hle (Nat.le_refl _)
    | none =>
      simp only [stripTagsFuel, hlt, if_pos, hone]
      rfl
  · simp only [stripTagsFuel, hlt, if_neg, ite_false]
    rfl

theorem stripTags_of_no_tag :
    ∀ {l : List Char}, hasTag l = false → stripTags l = l := by
  intro l
  induction l with
  | nil => intro _; rfl
  | cons c rest ih =>
    intro h
    by_cases hlt : c = '<'
    · simp only [hasTag, hlt, if_pos, Bool.or_eq_false_iff] at h
      cases hone : findTagEnd rest with
      | some rest2 => rw [hone] at h; simp at h
      | none =>
        rw [stripTags_cons, if_pos hlt, hone, ih h.2]
    · simp only [hasTag, hlt, if_neg, ite_false] at h
      rw [stripTags_cons, if_neg hlt, ih h]

theorem findTagEnd_split :
    ∀ {l l' : List Char}, findTagEnd l = some l' →
      ∃ mid, l = mid ++ '>' :: l' ∧ closes (mid ++ ['>']) = true := by
  intro l
  induction l with
  | nil => intro l' h; simp [findTagEnd] at h
  | cons c rest ih =>
    intro l' h
    by_cases hgt : c = '>'
    · simp [findTagEnd, hgt] at h
      exact ⟨[], by simp [hgt, h], by simp [closes]⟩
    · by_cases hnl : c = '\n'
      · simp [findTagEnd, hgt, hnl] at h
      · simp only [findTagEnd, hgt, hnl, ite_false, if_neg] at h
        obtain ⟨mid, hmid, hcl⟩ := ih h
        refine ⟨c :: mid, by simp [hmid], ?_⟩
        simpa [closes, hgt, hnl] using hcl

theorem closes_findTagEnd :
    ∀ {body : List Char}, closes body = true →
      ∀ post, ∃ l', findTagEnd (body ++ post) = some l' := by
  intro body
  induction body with
  | nil => intro h; simp [closes] at h
  | cons c rest ih =>
    intro h post
    by_cases hgt : c = '>'
    · exact ⟨rest ++ post, by simp [findTagEnd, hgt]⟩
    · by_cases hnl : c = '\n'
      · simp [closes, hgt, hnl] at h
      · simp only [closes, hgt, hnl, ite_false, if_neg] at h
        obtain ⟨l', hl'⟩ := ih h post
        exact ⟨l', by simpa [findTagEnd, hgt, hnl] using hl'⟩

theorem isTagMatch_cons (c : Char) (body : List Char) :
    isTagMatch (c :: body) = if c = '<' then closes body else false := by
  by_cases hc : c = '<'
  · subst hc; simp [isTagMatch]
  · rw [if_neg hc]
    unfold isTagMatch
    split
    · rename_i heq
      injection heq with h1 _
      exact absurd h1 hc
    · rfl

theorem hasTag_cons_of {rest : List Char} (c : Char)
    (h : hasTag rest = true) : hasTag (c :: rest) = true := by
  by_cases hlt : c = '<' <;> simp [hasTag, hlt, h]

/-- `hasTag` is exactly the existence of a substring matching the tag
pattern `<.*?>`. -/
theorem hasTag_iff (l : List Char) :
    hasTag l = true ↔
      ∃ pre mid post, l = pre ++ mid ++ post ∧ isTagMatch mid = true := by
  constructor
  · induction l with
    | nil => intro h; simp [hasTag] at h
    | cons c rest ih =>
      intro h
      by_cases hlt : c = '<'
      · simp only [hasTag, hlt, if_pos, Bool.or_eq_true] at h
        rcases h with h | h
        · obtain ⟨rest2, hone⟩ := Option.isSome_iff_exists.mp h
          obtain ⟨mid, hmid, hcl⟩ := findTagEnd_split hone
          refine ⟨[], '<' :: (mid ++ ['>']), rest2, ?_, ?_⟩
          · simp [hlt, hmid]
          · simpa [isTagMatch] using hcl
        · obtain ⟨pre, mid, post, hsplit, hm⟩ := ih h
          exact ⟨c :: pre, mid, post, by simp [hsplit], hm⟩
      · simp only [hasTag, hlt, if_neg, ite_false] at h
        obtain ⟨pre, mid, post, hsplit, hm⟩ := ih h
        exact ⟨c :: pre, mid, post, by simp [hsplit], hm⟩
  · rintro ⟨pre, mid, post, hsplit, hm⟩
    subst hsplit
    induction pre with
    | nil =>
      cases mid with
      | nil => simp [isTagMatch] at hm
      | cons c body =>
        rw [isTagMatch_cons] at hm
        by_cases hc : c = '<'
        case neg => rw [if_neg hc] at hm; exact absurd hm (by simp)
        rw [if_pos hc] at hm
        subst hc
        have hcl : closes body = true := hm
        obtain ⟨l', hl'⟩ := closes_findTagEnd hcl post
        simp only [List.cons_append, List.nil_append]
        simp [hasTag, hl', Option.isSome]
    | cons c pre ih2 =>
      exact hasTag_cons_of c ih2

theorem foldl_pair {α β : Type} (f : α → Nat → α) (g : Nat → β) :
    ∀ (l : List Nat) (a : α) (b : List β),
      l.foldl (fun acc i => (f acc.1 i, acc.2 ++ [g i])) (a, b) =
        (l.foldl f a, b ++ l.map g) := by
  intro l
  induction l with
  | nil => intro a b; simp
  | cons i l ih =>
    intro a b
    simp only [List.foldl_cons, List.map_cons]
    rw [ih]
    simp

theorem foldl_fix {α β : Type} {f : α → β → α} {b : α}
    (hfix : ∀ x, f b x = b) : ∀ l : List β, l.foldl f b = b := by
  intro l
  induction l with
  | nil => rfl
  | cons x l ih => simp only [List.foldl_cons, hfix x]; exact ih

theorem innerLoop_char (h c : List String) (r : Nat) (hl : List String) :
    innerLoop h c r hl =
      ((List.range h.length).foldl (hlUpd h) hl,
       (List.range h.length).map
         (fun i => clean_tags (c.getD (r * h.length + i) ""))) := by
  unfold innerLoop
  exact foldl_pair (hlUpd h) _ _ _ _

theorem tableLoop_char (h c : List String) (hl : List String)
    (cl : List (List String)) :
    tableLoop h c hl cl =
      ((List.range (c.length / h.length)).foldl
         (fun hl' _ => (List.range h.length).foldl (hlUpd h) hl') hl,
       cl ++ rowsOf h c) := by
  unfold tableLoop rowsOf
  refine Eq.trans (List.foldl_ext _ _ _ ?_) (foldl_pair _ _ _ _ _)
  intro a b _
  rw [innerLoop_char]

theorem hlUpd_foldl (h : List String) :
    ∀ (n : Nat) (hl : List String),
      (List.range n).foldl (hlUpd h) hl =
        hl ++ (List.range (min n (h.length - hl.length))).map
          (fun i => clean_tags (h.getD i "")) := by
  intro n
  induction n with
  | zero => intro hl; simp
  | succ n ih =>
    intro hl
    rw [List.range_succ, List.foldl_append, ih hl]
    simp only [List.foldl_cons, List.foldl_nil]
    unfold hlUpd
    rw [List.length_append, List.length_map, List.length_range]
    by_cases hcase : hl.length + min n (h.length - hl.length) < h.length
    · rw [if_pos hcase]
      have hn : min n (h.length - hl.length) = n := by omega
      have hn1 : min (n + 1) (h.length - hl.length) = n + 1 := by omega
      rw [hn1, hn, List.range_succ, List.map_append, ← List.append_assoc]
      simp
    · rw [if_neg hcase]
      have heq : min (n + 1) (h.length - hl.length) =
          min n (h.length - hl.length) := by omega
      rw [heq]

theorem hlFold_full (h : List String) (hl : List String) :
    (List.range h.length).foldl (hlUpd h) hl =
      hl ++ (List.range (h.length - hl.length)).map
        (fun i => clean_tags (h.getD i "")) := by
  rw [hlUpd_foldl, Nat.min_eq_right (Nat.sub_le _ _)]

theorem hlFix (h : List String) (hl : List String)
    (hge : h.length ≤ hl.length) :
    (List.range h.length).foldl (hlUpd h) hl = hl := by
  rw [hlFold_full, Nat.sub_eq_zero_of_le hge]
  simp

theorem rowsFoldl_fix (h : List String) (hl : List String)
    (hge : h.length ≤ hl.length) (n : Nat) :
    (List.range n).foldl
      (fun hl' _ => (List.range h.length).foldl (hlUpd h) hl') hl = hl :=
  foldl_fix (fun _ => hlFix h hl hge) _

theorem rowsFoldl_char (h : List String) (hl : List String) (n : Nat)
    (hn : 0 < n) (hL : hl.length < h.length) :
    (List.range n).foldl
      (fun hl' _ => (List.range h.length).foldl (hlUpd h) hl') hl =
      hl ++ (List.range (h.length - hl.length)).map
        (fun i => clean_tags (h.getD i "")) := by
  obtain ⟨m, rfl⟩ : ∃ m, n = m + 1 := ⟨n - 1, by omega⟩
  rw [List.range_succ_eq_map]
  simp only [List.foldl_cons]
  rw [hlFold_full]
  refine foldl_fix (fun _ => hlFix h _ ?_) _
  rw [List.length_append, List.length_map, List.length_range]
  omega

theorem range_map_getD {α β : Type} (f : α → β) (d : α) :
    ∀ l : List α,
      (List.range l.length).map (fun i => f (l.getD i d)) = l.map f := by
  intro l
  induction l with
  | nil => simp
  | cons a l ih =>
    rw [List.length_cons, List.range_succ_eq_map, List.map_cons, List.map_map]
    refine congrArg₂ List.cons rfl ?_
    rw [← ih]
    rfl

theorem getD_map_range {β : Type} (f : Nat → β) {n i : Nat} (d : β)
    (h : i < n) : ((List.range n).map f).getD i d = f i := by
  rw [List.getD_eq_getElem?_getD, List.getElem?_map, List.getElem?_range h]
  rfl

theorem scrapeLoop_reuse :
    ∀ (ts : List Wikitable) (hl : List String) (cl : List (List String)),
      (∀ u ∈ ts, u.th ≠ [] ∧ u.th.length ≤ hl.length) →
      scrapeLoop (hl, cl) ts =
        Except.ok (hl, cl ++ (ts.map (fun u => rowsOf u.th u.td)).flatten) := by
  intro ts
  induction ts with
  | nil => intro hl cl _; simp [scrapeLoop]
  | cons u rest ih =>
    intro hl cl hts
    obtain ⟨hne, hle⟩ := hts u (List.mem_cons_self u rest)
    have hlen : u.th.length ≠ 0 := fun h => hne (List.length_eq_zero.mp h)
    simp only [scrapeLoop]
    rw [if_neg hlen, tableLoop_char, rowsFoldl_fix u.th hl hle]
    rw [ih hl _ (fun v hv => hts v (List.mem_cons_of_mem u hv))]
    simp [List.append_assoc]

theorem scrapeLoop_zero :
    ∀ (ts : List Wikitable) (acc : List String × List (List String))
      (t : Wikitable), t ∈ ts → t.th = [] →
      scrapeLoop acc ts = Except.error PyError.zeroDivisionError := by
  intro ts
  induction ts with
  | nil => intro acc t ht _; simp at ht
  | cons u rest ih =>
    intro acc t ht hth
    by_cases hu : u.th.length = 0
    · simp [scrapeLoop, hu]
    · simp only [scrapeLoop]
      rw [if_neg hu]
      rcases List.mem_cons.mp ht with rfl | hmem
      · exact absurd (hth ▸ rfl) hu
      · exact ih _ t hmem hth

theorem scrape_tables_zero (tables : List Wikitable) (t : Wikitable)
    (ht : t ∈ tables) (hth : t.th = []) :
    scrape_tables tables = Except.error PyError.zeroDivisionError := by
  unfold scrape_tables
  rw [scrapeLoop_zero tables _ t ht hth]

theorem scrapeLoop_ok_or_zero :
    ∀ (ts : List Wikitable) (acc : List String × List (List String)),
      (∃ r, scrapeLoop acc ts = Except.ok r) ∨
      scrapeLoop acc ts = Except.error PyError.zeroDivisionError := by
  intro ts
  induction ts with
  | nil => intro acc; exact Or.inl ⟨acc, rfl⟩
  | cons u rest ih =>
    intro acc
    by_cases hu : u.th.length = 0
    · right; simp [scrapeLoop, hu]
    · simp only [scrapeLoop]
      rw [if_neg hu]
      exact ih _

theorem scrape_tables_ok_or_zero (tables : List Wikitable) :
    (∃ df, scrape_tables tables = Except.ok df) ∨
    scrape_tables tables = Except.error PyError.zeroDivisionError := by
  unfold scrape_tables
  rcases scrapeLoop_ok_or_zero tables ([], []) with ⟨⟨hl, cl⟩, hr⟩ | hr
  · rw [hr]; exact Or.inl ⟨⟨hl, cl⟩, rfl⟩
  · rw [hr]; exact Or.inr rfl

theorem yearLoop_error (fetch : Nat → List Wikitable) :
    ∀ (ys : List Nat) (data : List (String × DataFrame)) (y : Nat),
      y ∈ ys →
      scrape_tables (fetch y) = Except.error PyError.zeroDivisionError →
      yearLoop fetch ys data = Except.error PyError.zeroDivisionError := by
  intro ys
  induction ys with
  | nil => intro data y hy _; simp at hy
  | cons y0 rest ih =>
    intro data y hy herr
    cases hs : scrape_tables (fetch y0) with
    | error e =>
      have : e = PyError.zeroDivisionError := by
        rcases scrape_tables_ok_or_zero (fetch y0) with ⟨df, hdf⟩ | hz
        · rw [hs] at hdf; exact absurd hdf (by simp)
        · rw [hs] at hz; injection hz
      subst this
      simp [yearLoop, hs]
    | ok df =>
      rcases List.mem_cons.mp hy with rfl | hmem
      · rw [hs] at herr; exact absurd herr (by simp)
      · simp only [yearLoop, hs]
        exact ih _ y hmem herr

theorem yearLoop_ok (fetch : Nat → List Wikitable) (tbl : Nat → DataFrame)
    (hok : ∀ y, scrape_tables (fetch y) = Except.ok (tbl y)) :
    ∀ (ys : List Nat) (data : List (String × DataFrame)),
      yearLoop fetch ys data =
        Except.ok (data ++ ys.map (fun y => (toString y, tbl y))) := by
  intro ys
  induction ys with
  | nil => intro data; simp [yearLoop]
  | cons y rest ih =>
    intro data
    simp only [yearLoop, hok y]
    rw [ih]
    simp

theorem foldl_perpStep :
    ∀ (data : List DataFrame) (acc : List String),
      data.foldl perpStep acc =
        acc ++ (data.map (fun df => perpStep [] df)).flatten := by
  intro data
  induction data with
  | nil => intro acc; simp
  | cons df rest ih =>
    intro acc
    simp only [List.foldl_cons, List.map_cons, List.flatten_cons]
    rw [ih]
    have hstep : perpStep acc df = acc ++ perpStep [] df := by
      unfold perpStep
      by_cases hA : "Perpetrator" ∈ df.columns
      · rw [if_pos hA, if_pos hA]; simp
      · rw [if_neg hA, if_neg hA]
        by_cases hB : "Perpetrators" ∈ df.columns
        · rw [if_pos hB, if_pos hB]; simp
        · rw [if_neg hB, if_neg hB]; simp
    rw [hstep, List.append_assoc]

theorem lookup_writeFile (fs : FileSys) (p : List String) (c : String) :
    List.lookup p (writeFile fs p c).files = some c := by
  show List.lookup p (fs.files.filter (fun kv => kv.1 != p) ++ [(p, c)]) = _
  induction fs.files with
  | nil => simp [List.lookup]
  | cons kv l ih =>
    cases hb : (kv.1 != p) with
    | true =>
      have hne : ¬(p == kv.1) = true := by
        simp only [bne_iff_ne, ne_eq] at hb
        simp [beq_iff_eq]
        exact fun h => hb h.symm
      simp only [List.filter_cons, hb, if_pos, List.cons_append]
      cases kv with
      | mk k v =>
        rw [List.lookup_cons]
        simp only at hne
        simp [hne]
        exact ih
    | false =>
      simp only [List.filter_cons, hb]
      exact ih

theorem mem_keys_writeFile (fs : FileSys) (p q : List String) (c : String)
    (hq : q ∈ fs.files.map Prod.fst) :
    q ∈ (writeFile fs p c).files.map Prod.fst := by
  rcases List.mem_map.mp hq with ⟨kv, hkv, rfl⟩
  unfold writeFile
  simp only [List.map_append]
  by_cases hpq : kv.1 = p
  · exact List.mem_append.mpr (Or.inr (by simp [hpq]))
  · refine List.mem_append.mpr (Or.inl ?_)
    exact List.mem_map.mpr
      ⟨kv, List.mem_filter.mpr ⟨hkv, by simpa [bne_iff_ne] using hpq⟩, rfl⟩

theorem self_mem_writeFile (fs : FileSys) (p : List String) (c : String) :
    p ∈ (writeFile fs p c).files.map Prod.fst := by
  unfold writeFile
  simp

theorem mkdir_tt (fs : FileSys) (p : List String) :
    ∃ fs2, mkdir fs p true true = Except.ok fs2 ∧ fs.files = fs2.files ∧
      p ∈ fs2.dirs ∧ ∀ d ∈ fs.dirs, d ∈ fs2.dirs := by
  unfold mkdir
  by_cases hp : p ∈ fs.dirs
  · rw [if_pos hp]
    exact ⟨fs, by simp, rfl, hp, fun d hd => hd⟩
  · rw [if_neg hp, if_neg (by simp)]
    refine ⟨_, rfl, rfl, ?_, ?_⟩
    · simp
    · intro d hd
      simp [hd]

theorem saveLoop_ok (csvPath : List String) :
    ∀ (data : List (String × DataFrame)) (fs : FileSys),
      ∃ fs2, saveLoop csvPath data fs = Except.ok fs2 ∧
        (∀ yd ∈ data, (csvPath ++ [yd.1 ++ ".csv"]) ∈ fs2.files.map Prod.fst) ∧
        (∀ q ∈ fs.files.map Prod.fst, q ∈ fs2.files.map Prod.fst) ∧
        (∀ d ∈ fs.dirs, d ∈ fs2.dirs) ∧
        (data ≠ [] → csvPath ∈ fs2.dirs) := by
  intro data
  induction data with
  | nil =>
    intro fs
    exact ⟨fs, rfl, by simp, fun q hq => hq, fun d hd => hd, by simp⟩
  | cons yd rest ih =>
    intro fs
    obtain ⟨year, df⟩ := yd
    obtain ⟨fsm, hm, hfeq, hpdir, hdirs⟩ := mkdir_tt fs csvPath
    obtain ⟨fs2, hsl, hdata, hkeys, hdirs2, _⟩ :=
      ih (writeFile fsm (csvPath ++ [year ++ ".csv"]) (toCsvString df))
    refine ⟨fs2, ?_, ?_, ?_, ?_, ?_⟩
    · simp only [saveLoop, hm]
      exact hsl
    · intro yd' hyd'
      rcases List.mem_cons.mp hyd' with rfl | hmem
      · exact hkeys _ (self_mem_writeFile fsm _ _)
      · exact hdata yd' hmem
    · intro q hq
      rw [hfeq] at hq
      exact hkeys q (mem_keys_writeFile fsm _ q _ hq)
    · intro d hd
      exact hdirs2 d (hdirs d hd)
    · intro _
      exact hdirs2 csvPath hpdir

/-- C1: a matched table with `N > 0` header cells and `M` content cells
yields exactly `M / N` rows, each with `N` fields, the field at row `r`
and header index `i` being the cleaned content cell at `r * N + i`; the
trailing `M % N` cells are never consulted. -/
theorem scrape_single_table_rows (t : Wikitable) (hN : t.th ≠ []) :
    ∃ df, scrape_tables [t] = Except.ok df ∧
      df.rows = rowsOf t.th t.td ∧
      df.rows.length = t.td.length / t.th.length ∧
      (∀ r, r < t.td.length / t.th.length →
        (df.rows.getD r []).length = t.th.length) ∧
      (∀ r i, r < t.td.length / t.th.length → i < t.th.length →
        (df.rows.getD r []).getD i "" =
          clean_tags (t.td.getD (r * t.th.length + i) "")) := by
  have hlen : t.th.length ≠ 0 := fun h => hN (List.length_eq_zero.mp h)
  have h2 : tableLoop t.th t.td [] [] =
      ((List.range (t.td.length / t.th.length)).foldl
         (fun hl' _ => (List.range t.th.length).foldl (hlUpd t.th) hl') [],
       rowsOf t.th t.td) := by
    rw [tableLoop_char]
    simp
  refine ⟨⟨(List.range (t.td.length / t.th.length)).foldl
      (fun hl' _ => (List.range t.th.length).foldl (hlUpd t.th) hl') [],
      rowsOf t.th t.td⟩, ?_, rfl, ?_, ?_, ?_⟩
  · unfold scrape_tables
    simp only [scrapeLoop]
    rw [if_neg hlen, h2]
  · simp [rowsOf]
  · intro r hr
    unfold rowsOf
    rw [getD_map_range _ _ hr]
    simp
  · intro r i hr hi
    unfold rowsOf
    rw [getD_map_range _ _ hr, getD_map_range _ _ hi]

theorem scrape_single_table_rows_witness :
    (["<th>Date</th>", "<th>Perpetrator</th>"] : List String) ≠ [] ∧
    ∃ df, scrape_tables
        [⟨["<th>Date</th>", "<th>Perpetrator</th>"],
          ["a", "b", "c", "d", "e"]⟩] = Except.ok df ∧
      df.rows =
        rowsOf ["<th>Date</th>", "<th>Perpetrator</th>"]
          ["a", "b", "c", "d", "e"] ∧
      df.rows.length = 2 ∧
      (∀ r, r < 2 → (df.rows.getD r []).length = 2) ∧
      (∀ r i, r < 2 → i < 2 →
        (df.rows.getD r []).getD i "" =
          clean_tags ((["a", "b", "c", "d", "e"] : List String).getD
            (r * 2 + i) "")) :=
  ⟨by decide, scrape_single_table_rows
    ⟨["<th>Date</th>", "<th>Perpetrator</th>"], ["a", "b", "c", "d", "e"]⟩
    (by decide)⟩

/-- C2 counterexample: cleaning `"<a\nb>"` yields `"<ab>"`, whose whole
text matches the tag pattern `<...>`: the output is not free of tag-shaped
substrings, because newline removal runs after tag removal and `.` in the
tag pattern does not match a newline. -/
theorem clean_tags_tag_survives :
    clean_tags "<a\nb>" = "<ab>" ∧
    hasTag (clean_tags "<a\nb>").data = true ∧
    isTagMatch (clean_tags "<a\nb>").data = true := by decide

/-- C2 amended: the cleaner's output never contains a newline, and
cleaning `"<b>3</b>\n"` yields exactly `"3"`; the cleaner is a pure total
function.  (The output may still contain `<...>` substrings, as the
counterexample shows.) -/
theorem clean_tags_no_newline_and_example :
    (∀ s : String, '\n' ∉ (clean_tags s).data) ∧
    clean_tags "<b>3</b>\n" = "3" := by
  refine ⟨?_, by decide⟩
  intro s h
  have h2 := (List.mem_filter.mp h).2
  simp at h2

/-- C3: the perpetrator list is the concatenation, in year order, of each
table's contribution (its `Perpetrator` column if present, else its
`Perpetrators` column if present, else nothing), and the tally counts
exact string occurrences; on the two-year ISIS/Taliban example the tally
is `{"ISIS": 2, "Taliban": 1}`. -/
theorem get_perpetrators_tally_spec :
    (∀ data : List DataFrame,
      get_perpetrators data =
        (data.map (fun df => perpStep [] df)).flatten) ∧
    get_perpetrators
        [⟨["Perpetrator"], [["ISIS"], ["ISIS"]]⟩,
         ⟨["Perpetrator"], [["Taliban"]]⟩] = ["ISIS", "ISIS", "Taliban"] ∧
    perpetratorTally
        [⟨["Perpetrator"], [["ISIS"], ["ISIS"]]⟩,
         ⟨["Perpetrator"], [["Taliban"]]⟩] = [("ISIS", 2), ("Taliban", 1)] := by
  refine ⟨?_, by decide, by decide⟩
  intro data
  unfold get_perpetrators
  rw [foldl_perpStep]
  simp

/-- C4 counterexample: the first matched table has header cells `A`, `B`
but only one content cell, so it yields no row and contributes no headers;
the columns come from the second table instead of the first. -/
theorem columns_not_first_table :
    scrape_tables
        [⟨["<th>A</th>", "<th>B</th>"], ["x"]⟩,
         ⟨["<th>C</th>", "<th>D</th>"], ["u", "v"]⟩] =
      Except.ok ⟨["C", "D"], [["u", "v"]]⟩ ∧
    (["<th>A</th>", "<th>B</th>"] : List String).map clean_tags =
      ["A", "B"] ∧
    (["C", "D"] : List String) ≠ ["A", "B"] := by decide

/-- C4 amended: header cells are captured only while rows are being
emitted and only while fewer headers than the current table's header count
have been collected.  When the first matched table emits at least one row
and every later table has at most as many header cells, the columns are
exactly the first table's cleaned header cells, and they are silently
reused for every subsequent table's content (each table's rows still being
cut by its own header count). -/
theorem columns_first_table_reuse (t : Wikitable) (ts : List Wikitable)
    (h1 : t.th ≠ []) (h2 : 0 < t.td.length / t.th.length)
    (h3 : ∀ u ∈ ts, u.th ≠ [] ∧ u.th.length ≤ t.th.length) :
    scrape_tables (t :: ts) =
      Except.ok ⟨t.th.map clean_tags,
        ((t :: ts).map (fun u => rowsOf u.th u.td)).flatten⟩ := by
  have hlen : t.th.length ≠ 0 := fun h => h1 (List.length_eq_zero.mp h)
  have hfirst : tableLoop t.th t.td [] [] =
      (t.th.map clean_tags, rowsOf t.th t.td) := by
    rw [tableLoop_char]
    rw [rowsFoldl_char t.th [] _ h2 (by simpa using Nat.pos_of_ne_zero hlen)]
    simp only [List.nil_append, List.length_nil, Nat.sub_zero]
    rw [range_map_getD clean_tags "" t.th]
  unfold scrape_tables
  simp only [scrapeLoop]
  rw [if_neg hlen, hfirst]
  rw [scrapeLoop_reuse ts (t.th.map clean_tags) (rowsOf t.th t.td)
      (fun u hu => ⟨(h3 u hu).1, by simpa using (h3 u hu).2⟩)]
  simp

theorem columns_first_table_reuse_witness :
    (["<th>A</th>", "<th>B</th>"] : List String) ≠ [] ∧
    0 < (["x", "y", "z"] : List String).length /
      (["<th>A</th>", "<th>B</th>"] : List String).length ∧
    (∀ u ∈ [(⟨["P", "Q"], ["u", "v"]⟩ : Wikitable)],
      u.th ≠ [] ∧ u.th.length ≤ 2) ∧
    scrape_tables
        [⟨["<th>A</th>", "<th>B</th>"], ["x", "y", "z"]⟩,
         ⟨["P", "Q"], ["u", "v"]⟩] =
      Except.ok ⟨(["<th>A</th>", "<th>B</th>"] : List String).map clean_tags,
        (([⟨["<th>A</th>", "<th>B</th>"], ["x", "y", "z"]⟩,
           ⟨["P", "Q"], ["u", "v"]⟩] : List Wikitable).map
          (fun u => rowsOf u.th u.td)).flatten⟩ :=
  ⟨by decide, by decide, by decide,
   columns_first_table_reuse ⟨["<th>A</th>", "<th>B</th>"], ["x", "y", "z"]⟩
     [⟨["P", "Q"], ["u", "v"]⟩] (by decide) (by decide) (by decide)⟩

/-- C5: a matched table with zero header cells makes `len(contents) //
len(headings)` raise `ZeroDivisionError`; the error propagates unchanged
through the year loop, so the whole run terminates with no partial
result. -/
theorem zero_headers_zero_division (fetch : Nat → List Wikitable)
    (a b y : Nat) (t : Wikitable) (hay : a ≤ y) (hyb : y ≤ b)
    (ht : t ∈ fetch y) (hth : t.th = []) :
    scrape_tables (fetch y) = Except.error PyError.zeroDivisionError ∧
    buildData fetch a b = Except.error PyError.zeroDivisionError := by
  have h1 := scrape_tables_zero _ t ht hth
  refine ⟨h1, ?_⟩
  unfold buildData
  refine yearLoop_error fetch _ _ y ?_ h1
  rw [List.mem_range']
  exact ⟨y - a, by omega, by omega⟩

theorem zero_headers_zero_division_witness :
    1999 ≤ 2000 ∧ 2000 ≤ 2001 ∧
    (⟨[], ["x"]⟩ : Wikitable) ∈ [(⟨[], ["x"]⟩ : Wikitable)] ∧
    (⟨[], ["x"]⟩ : Wikitable).th = [] ∧
    (scrape_tables [⟨[], ["x"]⟩] =
        Except.error PyError.zeroDivisionError ∧
      buildData (fun _ => [⟨[], ["x"]⟩]) 1999 2001 =
        Except.error PyError.zeroDivisionError) :=
  ⟨by decide, by decide, by decide, rfl,
   zero_headers_zero_division (fun _ => [⟨[], ["x"]⟩]) 1999 2001 2000
     ⟨[], ["x"]⟩ (by decide) (by decide) (by decide) rfl⟩

/-- C6 counterexample: a page with no matched table does not raise; the
extractor returns an empty table. -/
theorem no_tables_no_error :
    scrape_tables [] = Except.ok ⟨[], []⟩ ∧
    ∀ e : PyError, scrape_tables [] ≠ Except.error e := by
  refine ⟨by decide, ?_⟩
  intro e h
  simp [scrape_tables, scrapeLoop] at h

/-- C6 amended: a fetched page with no table matching the fixed class
raises no error: `findAll` returns an empty list, the loop body never
runs, and the extractor returns an empty table (no columns, no rows); the
run continues to later years. -/
theorem no_tables_empty_table :
    scrape_tables [] = Except.ok ⟨[], []⟩ ∧
    buildData (fun _ => []) 1999 2001 =
      Except.ok [("1999", ⟨[], []⟩), ("2000", ⟨[], []⟩),
        ("2001", ⟨[], []⟩)] := by decide

/-- C7 counterexample: the cleaner is not idempotent: on `"<a\nb>"` the
first cleaning yields `"<ab>"` and a second cleaning removes the newly
formed tag, yielding `""`. -/
theorem clean_tags_not_idempotent :
    clean_tags (clean_tags "<a\nb>") ≠ clean_tags "<a\nb>" := by decide

/-- C7 amended: cleaning a string already free of HTML-tag substrings
(`hasTag = false`, equivalent by `hasTag_iff` to having no substring
matching `<.*?>`) and free of newline characters returns it unchanged.
(Full idempotence fails, as the counterexample shows.) -/
theorem clean_tags_fixed_on_clean (s : String)
    (h1 : hasTag s.data = false) (h2 : '\n' ∉ s.data) :
    clean_tags s = s := by
  unfold clean_tags
  rw [stripTags_of_no_tag h1]
  have hfil : ∀ a ∈ s.data, (a != '\n') = true := by
    intro a ha
    simp only [bne_iff_ne, ne_eq]
    intro hEq
    exact h2 (hEq ▸ ha)
  rw [List.filter_eq_self.mpr hfil]

theorem clean_tags_fixed_on_clean_witness :
    hasTag "abc".data = false ∧ '\n' ∉ "abc".data ∧
    clean_tags "abc" = "abc" :=
  ⟨by decide, by decide, clean_tags_fixed_on_clean "abc" (by decide) (by decide)⟩

/-- C8: for `start_year ≤ stop_year`, when every year's page scrapes
successfully the data collection is exactly one entry per year from
`start_year` to `stop_year` inclusive, in order, keyed by the string form
of the year and holding that year's table — `stop_year - start_year + 1`
entries and no others. -/
theorem buildData_year_range (fetch : Nat → List Wikitable)
    (tbl : Nat → DataFrame) (a b : Nat) (hab : a ≤ b)
    (hok : ∀ y, scrape_tables (fetch y) = Except.ok (tbl y)) :
    buildData fetch a b =
      Except.ok ((List.range' a (b + 1 - a)).map
        (fun y => (toString y, tbl y))) ∧
    ((List.range' a (b + 1 - a)).map
      (fun y => (toString y, tbl y))).length = b - a + 1 ∧
    ∀ y, a ≤ y → y ≤ b →
      (toString y, tbl y) ∈
        (List.range' a (b + 1 - a)).map (fun y => (toString y, tbl y)) := by
  refine ⟨?_, ?_, ?_⟩
  · unfold buildData
    rw [yearLoop_ok fetch tbl hok]
    simp
  · simp only [List.length_map, List.length_range']
    omega
  · intro y hy1 hy2
    refine List.mem_map_of_mem _ ?_
    rw [List.mem_range']
    exact ⟨y - a, by omega, by omega⟩

theorem buildData_year_range_witness :
    1999 ≤ 2000 ∧
    (buildData (fun _ => []) 1999 2000 =
      Except.ok ((List.range' 1999 2).map
        (fun y => (toString y, (⟨[], []⟩ : DataFrame)))) ∧
    ((List.range' 1999 2).map
      (fun y => (toString y, (⟨[], []⟩ : DataFrame)))).length = 2 ∧
    ∀ y, 1999 ≤ y → y ≤ 2000 →
      (toString y, (⟨[], []⟩ : DataFrame)) ∈
        (List.range' 1999 2).map
          (fun y => (toString y, (⟨[], []⟩ : DataFrame)))) :=
  ⟨by decide, buildData_year_range (fun _ => []) (fun _ => ⟨[], []⟩)
    1999 2000 (by decide) (fun _ => rfl)⟩

/-- C9: saving always succeeds — `mkdir(parents=True, exist_ok=True)`
raises neither on a pre-existing directory nor on missing parents, and
repeated writes to the same name do not raise — every year's table ends
up in a file `<year>.csv` under the target directory, the directory
exists afterwards, and a write to an existing path replaces its content
without warning. -/
theorem saveCsv_total_and_writes (csvPath : List String)
    (data : List (String × DataFrame)) (fs : FileSys) :
    ∃ fs2, saveLoop csvPath data fs = Except.ok fs2 ∧
      (∀ yd ∈ data,
        (csvPath ++ [yd.1 ++ ".csv"]) ∈ fs2.files.map Prod.fst) ∧
      (data ≠ [] → csvPath ∈ fs2.dirs) ∧
      (∀ fs' p c, List.lookup p (writeFile fs' p c).files = some c) := by
  obtain ⟨fs2, hok, hmem, _, _, hdir⟩ := saveLoop_ok csvPath data fs
  exact ⟨fs2, hok, hmem, hdir, fun fs' p c => lookup_writeFile fs' p c⟩

theorem saveCsv_total_and_writes_witness :
    ∃ fs2, saveLoop ["csv_data"]
        [("1999", ⟨[], []⟩), ("1999", ⟨[], []⟩)]
        ⟨[["csv_data"]], []⟩ = Except.ok fs2 ∧
      (∀ yd ∈ ([("1999", (⟨[], []⟩ : DataFrame)),
          ("1999", ⟨[], []⟩)] : List (String × DataFrame)),
        (["csv_data"] ++ [yd.1 ++ ".csv"]) ∈ fs2.files.map Prod.fst) ∧
      (([("1999", (⟨[], []⟩ : DataFrame)), ("1999", ⟨[], []⟩)] :
          List (String × DataFrame)) ≠ [] → ["csv_data"] ∈ fs2.dirs) ∧
      (∀ fs' p c, List.lookup p (writeFile fs' p c).files = some c) :=
  saveCsv_total_and_writes ["csv_data"]
    [("1999", ⟨[], []⟩), ("1999", ⟨[], []⟩)] ⟨[["csv_data"]], []⟩

/-- C10: when a table has both a `Perpetrator` and a `Perpetrators`
column, only the `Perpetrator` column contributes to the tally — the
`if`/`elif` consults `Perpetrators` only when `Perpetrator` is absent. -/
theorem perpetrator_column_precedence (perps : List String) (df : DataFrame)
    (hA : "Perpetrator" ∈ df.columns) (_hB : "Perpetrators" ∈ df.columns) :
    perpStep perps df = perps ++ columnValues df "Perpetrator" := by
  unfold perpStep
  rw [if_pos hA]

theorem perpetrator_column_precedence_witness :
    ("Perpetrator" : String) ∈ ["Perpetrator", "Perpetrators"] ∧
    ("Perpetrators" : String) ∈ ["Perpetrator", "Perpetrators"] ∧
    perpStep [] ⟨["Perpetrator", "Perpetrators"], [["A", "B"]]⟩ =
      [] ++ columnValues ⟨["Perpetrator", "Perpetrators"], [["A", "B"]]⟩
        "Perpetrator" ∧
    columnValues ⟨["Perpetrator", "Perpetrators"], [["A", "B"]]⟩
      "Perpetrator" = ["A"] :=
  ⟨by decide, by decide,
   perpetrator_column_precedence []
     ⟨["Perpetrator", "Perpetrators"], [["A", "B"]]⟩ (by decide) (by decide),
   by decide⟩
